import Mathlib

/-!
Verification of the contact-extractor engine against its specification.

Strings are modelled as lists of characters so that the JavaScript string
helpers of the frontend (frontend/src/App.jsx) and the documented backend
operations translate to structurally recursive Lean functions.
-/

namespace ContactExtractor

/-- Character class of the whitespace removed by the JavaScript
String.trim method (ASCII whitespace, NBSP, BOM and the two Unicode
line separators). -/
def isJsSpace (c : Char) : Bool :=
  c = ' ' || c = '\t' || c = '\n' || c = '\r' ||
  c.val = 11 || c.val = 12 || c.val = 160 || c.val = 65279 ||
  c.val = 8232 || c.val = 8233

/-- Drop leading JavaScript whitespace from a character list. -/
def dropSpacesL : List Char → List Char
  | [] => []
  | c :: cs => if isJsSpace c then dropSpacesL cs else c :: cs

/-- The JavaScript String.trim method: remove whitespace from both ends. -/
def trimChars (l : List Char) : List Char :=
  (dropSpacesL ((dropSpacesL l).reverse)).reverse

/-- The JavaScript String.startsWith method on character lists:
startsWithL pat s decides whether pat is an initial segment of s. -/
def startsWithL : List Char → List Char → Bool
  | [], _ => true
  | _ :: _, [] => false
  | p :: ps, c :: cs => p = c && startsWithL ps cs

def httpChars : List Char := "http://".data

def httpsChars : List Char := "https://".data

/-- normalizeUrl from frontend/src/App.jsx: returns the empty string for a
falsy input, trims the input, and adds the https scheme when no
http or https scheme is present. -/
def normalizeUrl (url : List Char) : List Char :=
  if url = [] then []
  else if trimChars url = [] then []
  else if startsWithL httpChars (trimChars url) || startsWithL httpsChars (trimChars url) then
    trimChars url
  else httpsChars ++ trimChars url

/-- ASCII letter test, the character class a-zA-Z of the URL pattern. -/
def isAlphaA (c : Char) : Bool := c.isAlpha

/-- ASCII letter-or-digit test, the character class a-zA-Z0-9. -/
def isAlnumA (c : Char) : Bool := c.isAlpha || c.isDigit

/-- Character class a-zA-Z0-9 or hyphen, allowed inside a host label. -/
def isLabelChar (c : Char) : Bool := isAlnumA c || c = '-'

/-- Characters on which the regex dot does not match in JavaScript
(line terminators). -/
def isLineTerm (c : Char) : Bool :=
  c = '\n' || c = '\r' || c.val = 8232 || c.val = 8233

/-- Tail of a host label after its first character: a run of label
characters whose last character is a letter or digit (possibly empty). -/
def labelTailA : List Char → Bool
  | [] => true
  | [c] => isAlnumA c
  | c :: cs => isLabelChar c && labelTailA cs

/-- One dotted host label of the URL pattern: a letter or digit, then
optionally up to 61 label characters ending in a letter or digit. -/
def validLabel : List Char → Bool
  | [] => false
  | c :: cs => isAlnumA c && labelTailA cs && decide (cs.length ≤ 62)

/-- Top-level label of the URL pattern: at least two ASCII letters. -/
def validTld (l : List Char) : Bool :=
  decide (2 ≤ l.length) && l.all isAlphaA

/-- Split a character list on a separator character; always returns at
least one (possibly empty) segment. -/
def splitOnAux (sep : Char) : List Char → List Char → List (List Char)
  | [], acc => [acc.reverse]
  | c :: cs, acc =>
    if c = sep then acc.reverse :: splitOnAux sep cs []
    else splitOnAux sep cs (c :: acc)

def splitOnChar (sep : Char) (l : List Char) : List (List Char) :=
  splitOnAux sep l []

/-- Remove one leading http or https scheme, as matched by the optional
scheme group of the URL pattern. -/
def stripSchemeL (t : List Char) : List Char :=
  if startsWithL httpChars t then t.drop 7
  else if startsWithL httpsChars t then t.drop 8
  else t

/-- Host part of the URL pattern: one or more dotted labels followed by an
alphabetic top-level label of length at least two. -/
def hostMatch (host : List Char) : Bool :=
  match (splitOnChar '.' host).reverse with
  | [] => false
  | tld :: labs => decide (labs ≠ []) && validTld tld && labs.all validLabel

/-- Optional path part of the URL pattern: either empty or a slash
followed by characters that the regex dot matches. -/
def pathMatch : List Char → Bool
  | [] => true
  | c :: rest => c = '/' && rest.all (fun ch => !isLineTerm ch)

/-- The anchored URL regular expression of isValidUrl, decomposed: an
optional scheme, then the host, then an optional path starting at the
first slash.  Labels cannot contain a slash or a dot, the top-level
label cannot contain a dot, and the path must begin with a slash, so
this decomposition is exact. -/
def urlPatternMatch (t : List Char) : Bool :=
  let rest := stripSchemeL t
  hostMatch (rest.takeWhile (fun c => c ≠ '/')) &&
  pathMatch (rest.dropWhile (fun c => c ≠ '/'))

/-- isValidUrl from frontend/src/App.jsx: non-empty input, trimmed length
at least four, and the trimmed string matches the URL pattern. -/
def isValidUrl (url : List Char) : Bool :=
  if url = [] then false
  else
    let trimmed := trimChars url
    if decide (trimmed.length < 4) then false
    else urlPatternMatch trimmed

/-- The URL filter that handleExtract applies before building the request
payload: a normalized URL is kept when it is non-empty and valid. -/
def keptByHandleExtract (u : List Char) : Bool :=
  decide (u ≠ []) && isValidUrl u

theorem dropSpacesL_head (l : List Char) :
    dropSpacesL l = [] ∨
      ∃ c cs, dropSpacesL l = c :: cs ∧ isJsSpace c = false := by
  induction l with
  | nil => exact Or.inl rfl
  | cons c cs ih =>
    by_cases h : isJsSpace c = true
    · simpa [dropSpacesL, h] using ih
    · exact Or.inr ⟨c, cs, by simp [dropSpacesL, h], by simpa using h⟩

theorem dropSpacesL_of_head (c : Char) (cs : List Char) (h : isJsSpace c = false) :
    dropSpacesL (c :: cs) = c :: cs := by
  simp [dropSpacesL, h]

theorem dropSpacesL_idem (l : List Char) :
    dropSpacesL (dropSpacesL l) = dropSpacesL l := by
  rcases dropSpacesL_head l with h | ⟨c, cs, h, hc⟩
  · simp [h, dropSpacesL]
  · rw [h, dropSpacesL_of_head c cs hc]

theorem dropSpacesL_suffix (l : List Char) :
    ∃ p, l = p ++ dropSpacesL l := by
  induction l with
  | nil => exact ⟨[], rfl⟩
  | cons c cs ih =>
    by_cases h : isJsSpace c = true
    · obtain ⟨p, hp⟩ := ih
      exact ⟨c :: p, by simp [dropSpacesL, h]; exact hp⟩
    · exact ⟨[], by simp [dropSpacesL, h]⟩

theorem trimChars_reverse (l : List Char) :
    (trimChars l).reverse = dropSpacesL ((dropSpacesL l).reverse) := by
  simp [trimChars]

/-- The head of a non-empty trimmed string is not whitespace. -/
theorem trimChars_head (l : List Char) (x : Char) (t : List Char)
    (h : trimChars l = x :: t) : isJsSpace x = false := by
  rcases dropSpacesL_head l with ha | ⟨c0, r0, ha, hc0⟩
  · simp [trimChars, ha, dropSpacesL] at h
  · obtain ⟨p, hp⟩ := dropSpacesL_suffix ((dropSpacesL l).reverse)
    have hrev : dropSpacesL l = trimChars l ++ p.reverse := by
      have := congrArg List.reverse hp
      simpa [trimChars, List.reverse_append] using this
    rw [ha, h] at hrev
    have : c0 = x := by
      have := hrev
      simp at this
      exact this.1
    rw [← this]; exact hc0

/-- Trimming is idempotent. -/
theorem trimChars_idem (l : List Char) :
    trimChars (trimChars l) = trimChars l := by
  by_cases h : trimChars l = []
  · rw [h]; rfl
  · obtain ⟨x, t, hxt⟩ := List.exists_cons_of_ne_nil h
    have hx : isJsSpace x = false := trimChars_head l x t hxt
    have h1 : dropSpacesL (trimChars l) = trimChars l := by
      rw [hxt]; exact dropSpacesL_of_head x t hx
    have h2 : dropSpacesL ((trimChars l).reverse) = (trimChars l).reverse := by
      rw [trimChars_reverse, dropSpacesL_idem]
    calc trimChars (trimChars l)
        = (dropSpacesL ((dropSpacesL (trimChars l)).reverse)).reverse := rfl
      _ = (dropSpacesL ((trimChars l).reverse)).reverse := by rw [h1]
      _ = ((trimChars l).reverse).reverse := by rw [h2]
      _ = trimChars l := List.reverse_reverse _

/-- Prepending the https scheme to a non-empty trimmed string yields a
string that trimming leaves unchanged. -/
theorem trimChars_https_append (l : List Char) (h : trimChars l ≠ []) :
    trimChars (httpsChars ++ trimChars l) = httpsChars ++ trimChars l := by
  set t := trimChars l with ht
  have hrevt : t.reverse = dropSpacesL ((dropSpacesL l).reverse) := trimChars_reverse l
  rcases dropSpacesL_head ((dropSpacesL l).reverse) with hb | ⟨c1, cs1, hb, hc1⟩
  · rw [hb] at hrevt
    exact absurd (by simpa using hrevt) h
  · rw [hb] at hrevt
    have h1 : dropSpacesL (httpsChars ++ t) = httpsChars ++ t := by
      have : httpsChars ++ t = 'h' :: ("ttps://".data ++ t) := rfl
      rw [this, dropSpacesL_of_head _ _ (by decide)]
    have h2 : dropSpacesL ((httpsChars ++ t).reverse) = (httpsChars ++ t).reverse := by
      rw [List.reverse_append, hrevt]
      exact dropSpacesL_of_head _ _ hc1
    calc trimChars (httpsChars ++ t)
        = (dropSpacesL ((dropSpacesL (httpsChars ++ t)).reverse)).reverse := rfl
      _ = (dropSpacesL ((httpsChars ++ t).reverse)).reverse := by rw [h1]
      _ = ((httpsChars ++ t).reverse).reverse := by rw [h2]
      _ = httpsChars ++ t := List.reverse_reverse _

theorem startsWithL_self_append (p x : List Char) :
    startsWithL p (p ++ x) = true := by
  induction p with
  | nil => rfl
  | cons c cs ih => simp [startsWithL, ih]

/-- Claim C10: URL normalization is idempotent: for every string s,
normalizeUrl (normalizeUrl s) = normalizeUrl s, because the output either
is empty or already starts with http:// or https:// and carries no
surrounding whitespace, so a second application changes nothing. -/
theorem claim10_normalizeUrl_idempotent (l : List Char) :
    normalizeUrl (normalizeUrl l) = normalizeUrl l := by
  by_cases hl : l = []
  · simp [hl, normalizeUrl]
  · by_cases ht : trimChars l = []
    · have hN : normalizeUrl l = [] := by rw [normalizeUrl, if_neg hl, if_pos ht]
      rw [hN]; rfl
    · by_cases hs :
          (startsWithL httpChars (trimChars l) ||
            startsWithL httpsChars (trimChars l)) = true
      · have hN : normalizeUrl l = trimChars l := by
          rw [normalizeUrl, if_neg hl, if_neg ht, if_pos hs]
        rw [hN, normalizeUrl, if_neg ht, trimChars_idem, if_neg ht, if_pos hs]
      · have hN : normalizeUrl l = httpsChars ++ trimChars l := by
          rw [normalizeUrl, if_neg hl, if_neg ht, if_neg hs]
        have hne : httpsChars ++ trimChars l ≠ [] := by simp [httpsChars]
        rw [hN, normalizeUrl, if_neg hne, trimChars_https_append l ht, if_neg hne]
        have hstart : startsWithL httpsChars (httpsChars ++ trimChars l) = true :=
          startsWithL_self_append _ _
        rw [if_pos (by rw [hstart, Bool.or_true])]

/-- Claim C1: on the SSRF test inputs the frontend URL validation behaves
as specified: http://127.0.0.1/ and http://192.168.1.5/ are both filtered
out by handleExtract (normalizeUrl then isValidUrl fails, because the URL
pattern requires an alphabetic top-level label), while example.com
normalizes to https://example.com and passes the filter. -/
theorem claim1_ssrf_url_validation :
    keptByHandleExtract (normalizeUrl ("http://127.0.0.1/".data)) = false ∧
    keptByHandleExtract (normalizeUrl ("http://192.168.1.5/".data)) = false ∧
    normalizeUrl ("example.com".data) = "https://example.com".data ∧
    keptByHandleExtract (normalizeUrl ("example.com".data)) = true := by
  refine ⟨by decide, by decide, by decide, by decide⟩

/-! ## URL input list management (frontend/src/App.jsx) -/

def MAX_URLS : Nat := 5

/-- Initial state of the URL input list: useState with one empty field. -/
def initUrls : List (List Char) := [[]]

/-- addUrl: append an empty field unless the list is already full. -/
def addUrl (s : List (List Char)) : List (List Char) :=
  if s.length < MAX_URLS then s ++ [[]] else s

/-- removeUrl: filter out the field at the given index unless only one
field remains. -/
def removeUrl (i : Nat) (s : List (List Char)) : List (List Char) :=
  if 1 < s.length then s.eraseIdx i else s

/-- updateUrl: JavaScript array index assignment: overwrite in range,
extend with empty holes past the end. -/
def updateUrl (i : Nat) (v : List Char) (s : List (List Char)) : List (List Char) :=
  if i < s.length then s.set i v
  else (s ++ List.replicate (i - s.length) []) ++ [v]

/-- The invariant claimed for the URL input list. -/
def urlListInv (s : List (List Char)) : Prop :=
  1 ≤ s.length ∧ s.length ≤ MAX_URLS

theorem eraseIdx_length_le (s : List (List Char)) (i : Nat) :
    (s.eraseIdx i).length ≤ s.length := by
  rw [List.length_eraseIdx]
  split
  · omega
  · omega

/-- Claim C9: the URL input list always has between one and MAX_URLS
entries: the initial state has one entry, addUrl is a no-op on a full
list, removeUrl is a no-op on a singleton, and updateUrl (always invoked
by the UI with an index of a rendered field, hence in range) preserves
the length, so every state-updating operation preserves the invariant. -/
theorem claim9_url_list_invariant :
    urlListInv initUrls ∧
    (∀ s, urlListInv s → urlListInv (addUrl s)) ∧
    (∀ s i, urlListInv s → urlListInv (removeUrl i s)) ∧
    (∀ s i v, urlListInv s → i < s.length → urlListInv (updateUrl i v s)) := by
  refine ⟨⟨by decide, by decide⟩, ?_, ?_, ?_⟩
  · intro s ⟨h1, h2⟩
    unfold addUrl
    split
    · rename_i hlt
      refine ⟨by simp, ?_⟩
      simp only [List.length_append, List.length_cons, List.length_nil]
      omega
    · exact ⟨h1, h2⟩
  · intro s i ⟨h1, h2⟩
    unfold removeUrl
    split
    · refine ⟨?_, le_trans (eraseIdx_length_le s i) h2⟩
      rw [List.length_eraseIdx]
      split <;> omega
    · exact ⟨h1, h2⟩
  · intro s i v ⟨h1, h2⟩ hi
    unfold updateUrl
    rw [if_pos hi]
    exact ⟨by simpa using h1, by simpa using h2⟩

/-- Witness for C9 at a concrete state: adding a URL to the initial
state preserves the invariant. -/
theorem claim9_url_list_invariant_witness :
    urlListInv (addUrl initUrls) :=
  claim9_url_list_invariant.2.1 initUrls claim9_url_list_invariant.1

/-! ## Request retry policy (frontend/src/App.jsx, makeRequest and parseError) -/

def MAX_RETRIES : Nat := 1

def RETRY_DELAY : Nat := 1000

/-- Backoff before retry number r+1: RETRY_DELAY * (retries + 1). -/
def retryDelay (retries : Nat) : Nat := RETRY_DELAY * (retries + 1)

/-- The observable fields of a JavaScript error object that parseError
and makeRequest inspect. -/
structure JsErr where
  isCancel : Bool
  name : List Char
  code : List Char
  msgHasTimeout : Bool
  response : Option Nat
  hasRequest : Bool

/-- The error categories produced by parseError. -/
inductive ErrKind where
  | cancelled | timeout | notFound | rateLimit | serverError
  | gatewayError | httpError | network | unknown
deriving DecidableEq

def canceledErrorName : List Char := "CanceledError".data

def abortErrorName : List Char := "AbortError".data

def econnAbortedCode : List Char := "ECONNABORTED".data

/-- parseError from frontend/src/App.jsx, reduced to the category it
assigns to an error. -/
def parseErrorType (e : JsErr) : ErrKind :=
  if e.isCancel || e.name = canceledErrorName || e.name = abortErrorName then .cancelled
  else if e.code = econnAbortedCode || e.msgHasTimeout then .timeout
  else
    match e.response with
    | some status =>
      if status = 404 then .notFound
      else if status = 429 then .rateLimit
      else if status = 500 then .serverError
      else if status = 502 || status = 503 || status = 504 then .gatewayError
      else .httpError
    | none => if e.hasRequest then .network else .unknown

/-- The cancellation test at the top of the makeRequest catch block:
axios.isCancel or an AbortError name. -/
def isCancelLikeMk (e : JsErr) : Bool :=
  e.isCancel || e.name = abortErrorName

/-- The error categories on which makeRequest retries. -/
def isTransientKind : ErrKind → Bool
  | .timeout => true
  | .network => true
  | .gatewayError => true
  | _ => false

/-- The shouldRetry condition of makeRequest: below the retry bound and
a transient error category. -/
def shouldRetryB (e : JsErr) (retries : Nat) : Bool :=
  decide (retries < MAX_RETRIES) && isTransientKind (parseErrorType e)

/-- makeRequest from frontend/src/App.jsx, with the attempt outcomes and
the mounted-and-not-aborted check after the backoff sleep supplied as
oracles.  Returns the final outcome together with the list of attempt
numbers actually performed. -/
def makeRequestTrace {D : Type} (attempt : Nat → Except JsErr D)
    (mounted : Nat → Bool) (retries : Nat) : Except JsErr D × List Nat :=
  match attempt retries with
  | .ok d => (.ok d, [retries])
  | .error e =>
    if isCancelLikeMk e then (.error e, [retries])
    else if h : shouldRetryB e retries = true then
      if mounted retries then
        let rec' := makeRequestTrace attempt mounted (retries + 1)
        (rec'.1, retries :: rec'.2)
      else (.error e, [retries])
    else (.error e, [retries])
termination_by MAX_RETRIES + 1 - retries
decreasing_by
  have hr : retries < MAX_RETRIES := by
    unfold shouldRetryB at h
    rw [Bool.and_eq_true] at h
    exact of_decide_eq_true h.1
  omega

/-- handleExtract validation stage: normalize every field, keep the
non-empty valid ones. -/
def handleExtractValidUrls (urls : List (List Char)) : List (List Char) :=
  (urls.map normalizeUrl).filter keptByHandleExtract

/-- handleExtract request stage: no request payload is built when
validation leaves no URL. -/
def handleExtractRequest (urls : List (List Char)) : Option (List (List Char)) :=
  if handleExtractValidUrls urls = [] then none else some (handleExtractValidUrls urls)

theorem makeRequestTrace_stops (D : Type) (attempt : Nat → Except JsErr D)
    (mounted : Nat → Bool) (r : Nat) (hr : ¬r < MAX_RETRIES) :
    (makeRequestTrace attempt mounted r).2 = [r] := by
  unfold makeRequestTrace
  match h : attempt r with
  | .ok d => simp [h]
  | .error e =>
    have hs : shouldRetryB e r = false := by
      unfold shouldRetryB
      simp [hr]
    simp only [h]
    by_cases hc : isCancelLikeMk e = true
    · simp [hc]
    · simp [hc, hs]

/-- Claim C3: a failed request is retried at most MAX_RETRIES = 1 time,
only when the parseError category is transient (timeout, network, or a
502/503/504 gateway error), with a backoff delay growing in the retry
count; no retry happens after cancellation, after a validation failure
(no request is even issued), or after any 4xx response, 404 and 429
included (for 4xx the error is a server response, so it carries neither
the timeout code nor a timeout message). -/
theorem claim3_retry_policy :
    (∀ (D : Type) (attempt : Nat → Except JsErr D) (mounted : Nat → Bool),
      (makeRequestTrace attempt mounted 0).2.length ≤ MAX_RETRIES + 1) ∧
    (∀ e retries, shouldRetryB e retries = true →
      retries < MAX_RETRIES ∧
        (parseErrorType e = .timeout ∨ parseErrorType e = .network ∨
          parseErrorType e = .gatewayError)) ∧
    (∀ (D : Type) (attempt : Nat → Except JsErr D) (mounted : Nat → Bool) (r : Nat) e,
      attempt r = .error e → isCancelLikeMk e = true →
      makeRequestTrace attempt mounted r = (.error e, [r])) ∧
    (∀ e retries status, e.response = some status → 400 ≤ status → status < 500 →
      e.code ≠ econnAbortedCode → e.msgHasTimeout = false →
      shouldRetryB e retries = false) ∧
    (∀ retries, retryDelay retries < retryDelay (retries + 1)) ∧
    (∀ urls, handleExtractValidUrls urls = [] → handleExtractRequest urls = none) := by
  refine ⟨?_, ?_, ?_, ?_, ?_, ?_⟩
  · intro D attempt mounted
    unfold makeRequestTrace
    match h0 : attempt 0 with
    | .ok d => simp [h0]
    | .error e =>
      by_cases hc : isCancelLikeMk e = true
      · simp [h0, hc]
      · by_cases hs : shouldRetryB e 0 = true
        · by_cases hm : mounted 0 = true
          · have h1 : (makeRequestTrace attempt mounted 1).2 = [1] :=
              makeRequestTrace_stops D attempt mounted 1 (by decide)
            simp [h0, hc, hs, hm, h1]
            decide
          · simp [h0, hc, hs, hm]
        · simp [h0, hc, hs]
  · intro e retries h
    unfold shouldRetryB at h
    rw [Bool.and_eq_true] at h
    obtain ⟨h1, h2⟩ := h
    refine ⟨of_decide_eq_true h1, ?_⟩
    cases hk : parseErrorType e <;> rw [hk] at h2 <;> simp [isTransientKind] at h2
    · exact Or.inl rfl
    · exact Or.inr (Or.inr rfl)
    · exact Or.inr (Or.inl rfl)
  · intro D attempt mounted r e ha hc
    unfold makeRequestTrace
    simp [ha, hc]
  · intro e retries status hresp h400 h500 hcode hmsg
    unfold shouldRetryB
    by_cases hcan : (e.isCancel || e.name = canceledErrorName || e.name = abortErrorName) = true
    · have : parseErrorType e = .cancelled := by
        unfold parseErrorType
        rw [if_pos hcan]
      simp [this, isTransientKind]
    · have htim : ¬(e.code = econnAbortedCode || e.msgHasTimeout) = true := by
        simp [hcode, hmsg]
      have hstep : parseErrorType e =
          (if status = 404 then ErrKind.notFound
           else if status = 429 then ErrKind.rateLimit
           else if status = 500 then ErrKind.serverError
           else if status = 502 || status = 503 || status = 504 then ErrKind.gatewayError
           else ErrKind.httpError) := by
        unfold parseErrorType
        rw [if_neg hcan, if_neg htim, hresp]
      have hnot : parseErrorType e = ErrKind.notFound ∨
          parseErrorType e = ErrKind.rateLimit ∨
          parseErrorType e = ErrKind.serverError ∨
          parseErrorType e = ErrKind.httpError := by
        rw [hstep]
        by_cases h404 : status = 404
        · simp [h404]
        · by_cases h429 : status = 429
          · simp [h404, h429]
          · have hg : (status = 502 || status = 503 || status = 504) = false := by
              simp; omega
            have h500' : ¬status = 500 := by omega
            simp [h404, h429, h500', hg]
      rcases hnot with h | h | h | h <;> simp [h, isTransientKind]
  · intro retries
    unfold retryDelay RETRY_DELAY
    omega
  · intro urls h
    unfold handleExtractRequest
    rw [if_pos h]

/-- Witness for C3 at concrete inputs: an error carrying an HTTP 404
response (and no timeout indication) is never retried, and the backoff
after the first failure is shorter than the next one would be. -/
theorem claim3_retry_policy_witness :
    shouldRetryB
      { isCancel := false, name := [], code := [], msgHasTimeout := false,
        response := some 404, hasRequest := false } 0 = false ∧
    retryDelay 0 < retryDelay 1 :=
  ⟨claim3_retry_policy.2.2.2.1
      { isCancel := false, name := [], code := [], msgHasTimeout := false,
        response := some 404, hasRequest := false }
      0 404 rfl (by decide) (by decide) (by decide) rfl,
    claim3_retry_policy.2.2.2.2.1 0⟩

/-! ## Entity extractors

The backend module holding the extractors (backend/app/extractors.py) is
not part of the available sources; only its callers and the changelog
and audit documents describe it.  The definitions below are therefore
modelled from the spec: each extractor is a pure function on text capped
at MAX_TEXT_LENGTH before any matching, built as a single linear scan,
post-filtered, canonicalized, deduplicated by canonical form and capped
at MAX_RESULTS_PER_TYPE results. -/

def MAX_TEXT_LENGTH : Nat := 500000

def MAX_RESULTS_PER_TYPE : Nat := 50

/-- Modelled from the spec: the truncate_text helper with its 500 KB
default limit, applied before any pattern matching. -/
def truncateText (l : List Char) : List Char := l.take MAX_TEXT_LENGTH

/-- A contact entity: the raw matched text and its canonical form, the
latter used for deduplication and equality. -/
structure ContactEntity where
  raw : List Char
  canon : List Char
deriving DecidableEq

inductive EntityKind where
  | email | phone | whatsapp | social | personName | address
deriving DecidableEq

def lowerL (l : List Char) : List Char := l.map Char.toLower

/-- Deduplicate a list of entities by canonical form, keeping the first
occurrence of each form; seen accumulates the forms already kept. -/
def dedupByCanon (seen : List (List Char)) : List ContactEntity → List ContactEntity
  | [] => []
  | e :: es =>
    if e.canon ∈ seen then dedupByCanon seen es
    else e :: dedupByCanon (e.canon :: seen) es

/-- Modelled from the spec: every extractor deduplicates by canonical
form and enforces the MAX_RESULTS_PER_TYPE cap before returning. -/
def finalizeEntities (l : List ContactEntity) : List ContactEntity :=
  (dedupByCanon [] l).take MAX_RESULTS_PER_TYPE

/-- Split a text into maximal runs of characters satisfying keep;
the single linear pass shared by the token-based extractors. -/
def tokensByAux (keep : Char → Bool) : List Char → List Char → List (List Char)
  | [], acc => if acc = [] then [] else [acc.reverse]
  | c :: cs, acc =>
    if keep c then tokensByAux keep cs (c :: acc)
    else if acc = [] then tokensByAux keep cs []
    else acc.reverse :: tokensByAux keep cs []

def tokensBy (keep : Char → Bool) (l : List Char) : List (List Char) :=
  tokensByAux keep l []

/-- Characters that may appear in an email candidate token. -/
def emailChar (c : Char) : Bool :=
  c.isAlpha || c.isDigit || c = '.' || c = '_' || c = '%' || c = '+' ||
  c = '-' || c = '@'

/-- Characters allowed in the local part of an email address. -/
def localChar (c : Char) : Bool :=
  c.isAlpha || c.isDigit || c = '.' || c = '_' || c = '%' || c = '+' || c = '-'

def localOkE (l : List Char) : Bool :=
  decide (l ≠ []) && l.all localChar

/-- Email domain shape: dotted non-empty alphanumeric-or-hyphen labels
with an alphabetic top-level label of length at least two. -/
def domainOkE (d : List Char) : Bool :=
  match (splitOnChar '.' d).reverse with
  | [] => false
  | tld :: labs =>
    decide (labs ≠ []) && validTld tld &&
      labs.all (fun seg => decide (seg ≠ []) && seg.all isLabelChar)

/-- Modelled from the spec: the simple, safe email pattern that replaced
the RFC 5322 one: a token containing exactly one at-sign splitting into
a valid local part and a valid dotted domain. -/
def parseEmailToken (t : List Char) : Option (List Char × List Char) :=
  match splitOnChar '@' t with
  | [loc, dom] => if localOkE loc && domainOkE dom then some (loc, dom) else none
  | _ => none

def assetExtsL : List (List Char) :=
  [".png".data, ".jpg".data, ".jpeg".data, ".gif".data, ".svg".data,
    ".webp".data, ".ico".data, ".css".data, ".js".data]

def endsWithL (pat l : List Char) : Bool := startsWithL pat.reverse l.reverse

/-- Image dimension suffix shape right after the at-sign: digits
optionally followed by the letter x, as the first domain segment. -/
def isDimDomain (dom : List Char) : Bool :=
  let seg := dom.takeWhile (fun c => c ≠ '.')
  decide (seg ≠ []) &&
    (seg.all Char.isDigit ||
      (decide (seg.dropLast ≠ []) && seg.dropLast.all Char.isDigit &&
        seg.getLast? = some 'x'))

def noreplyL : List Char := "noreply".data

def postmasterL : List Char := "postmaster".data

/-- Modelled from the spec: the email post-filters: image filenames and
dimension suffixes, stylesheet and script asset references, the noreply
and postmaster system mailboxes, and purely numeric local parts. -/
def isJunkEmail (loc dom : List Char) : Bool :=
  lowerL loc = noreplyL || lowerL loc = postmasterL ||
  loc.all Char.isDigit ||
  assetExtsL.any (fun ext => endsWithL ext (lowerL dom)) ||
  isDimDomain dom

def emailEntity (p : List Char × List Char) : ContactEntity :=
  { raw := p.1 ++ '@' :: p.2, canon := lowerL (p.1 ++ '@' :: p.2) }

def emailCandidates (t : List Char) : List (List Char × List Char) :=
  (tokensBy emailChar t).filterMap parseEmailToken

def extractEmailsCore (t : List Char) : List ContactEntity :=
  finalizeEntities
    (((emailCandidates t).filter (fun p => !isJunkEmail p.1 p.2)).map emailEntity)

/-- Modelled from the spec: the email extractor: truncate, scan for
candidate tokens, post-filter, canonicalize, deduplicate, cap. -/
def extractEmails (text : List Char) : List ContactEntity :=
  extractEmailsCore (truncateText text)

/-- Characters that may appear in a phone candidate token. -/
def phoneChar (c : Char) : Bool :=
  c.isDigit || c = '+' || c = '-' || c = '.' || c = '(' || c = ')' || c = ' '

def digitsOf (t : List Char) : List Char := t.filter Char.isDigit

/-- ISO date shape YYYY-MM-DD, excluded from phone matches. -/
def isDateShape (t : List Char) : Bool :=
  match splitOnChar '-' (t.filter (fun c => c ≠ ' ')) with
  | [y, m, d] =>
    decide (y.length = 4) && decide (m.length = 2) && decide (d.length = 2) &&
      y.all Char.isDigit && m.all Char.isDigit && d.all Char.isDigit
  | _ => false

/-- Dotted version or IP shape, excluded from phone matches. -/
def isDottedShape (t : List Char) : Bool :=
  let parts := splitOnChar '.' (t.filter (fun c => c ≠ ' '))
  decide (3 ≤ parts.length) &&
    parts.all (fun s => decide (s ≠ []) && s.all Char.isDigit)

/-- Modelled from the spec: a phone candidate has 7 to 15 digits and is
neither an ISO date nor a dotted version or IP sequence. -/
def validPhoneTok (t : List Char) : Bool :=
  decide (7 ≤ (digitsOf t).length) && decide ((digitsOf t).length ≤ 15) &&
    !isDateShape t && !isDottedShape t

def phoneEntity (t : List Char) : ContactEntity :=
  { raw := t, canon := if t.head? = some '+' then '+' :: digitsOf t else digitsOf t }

def extractPhonesCore (t : List Char) : List ContactEntity :=
  finalizeEntities
    ((((tokensBy phoneChar t).map trimChars).filter validPhoneTok).map phoneEntity)

/-- Modelled from the spec: the phone extractor. -/
def extractPhones (text : List Char) : List ContactEntity :=
  extractPhonesCore (truncateText text)

/-- Linear scan collecting, after every occurrence of a literal pattern,
the following non-empty run of characters satisfying keep. -/
def scanAfterPat (pat : List Char) (keep : Char → Bool) : List Char → List (List Char)
  | [] => []
  | c :: cs =>
    (if startsWithL pat (c :: cs) then
      (fun run => if run = [] then [] else [run])
        (((c :: cs).drop pat.length).takeWhile keep)
    else []) ++ scanAfterPat pat keep cs

def waPats : List (List Char) :=
  ["wa.me/".data, "api.whatsapp.com/send?phone=".data,
    "web.whatsapp.com/send?phone=".data]

def waEntity (num : List Char) : ContactEntity := { raw := num, canon := num }

def extractWhatsappCore (t : List Char) : List ContactEntity :=
  finalizeEntities
    (((waPats.map (fun p => scanAfterPat p Char.isDigit t)).flatten).map waEntity)

/-- Modelled from the spec: the WhatsApp extractor matching wa.me and
the api and web send links, collecting the phone number that follows. -/
def extractWhatsapp (text : List Char) : List ContactEntity :=
  extractWhatsappCore (truncateText text)

def usernameChar (c : Char) : Bool :=
  c.isAlpha || c.isDigit || c = '.' || c = '_' || c = '-'

/-- Platform name together with the profile URL pattern scanned for. -/
def socialPlatforms : List (List Char × List Char) :=
  [("facebook".data, "facebook.com/".data),
    ("twitter".data, "twitter.com/".data),
    ("linkedin".data, "linkedin.com/in/".data),
    ("instagram".data, "instagram.com/".data),
    ("github".data, "github.com/".data)]

/-- Reserved path segments that are not real usernames. -/
def skipUsernames : List (List Char) :=
  ["share".data, "intent".data, "login".data, "api".data, "static".data,
    "assets".data, "help".data]

def socialEntity (platform user : List Char) : ContactEntity :=
  { raw := user, canon := platform ++ ':' :: lowerL user }

def extractSocialCore (t : List Char) : List ContactEntity :=
  finalizeEntities
    ((socialPlatforms.map (fun pr =>
      ((scanAfterPat pr.2 usernameChar t).filter
        (fun u => decide (lowerL u ∉ skipUsernames))).map (socialEntity pr.1))).flatten)

/-- Modelled from the spec: the social-profile extractor with its skip
list of reserved path segments. -/
def extractSocial (text : List Char) : List ContactEntity :=
  extractSocialCore (truncateText text)

/-- A capitalized word: an upper-case letter then lower-case letters. -/
def upperWord : List Char → Bool
  | [] => false
  | c :: cs => c.isUpper && decide (cs ≠ []) && cs.all Char.isLower

/-- Adjacent pairs of capitalized words, the best-effort name heuristic. -/
def namePairs : List (List Char) → List (List Char)
  | w1 :: w2 :: rest =>
    (if upperWord w1 && upperWord w2 then [w1 ++ ' ' :: w2] else []) ++
      namePairs (w2 :: rest)
  | _ => []

def nameEntity (n : List Char) : ContactEntity := { raw := n, canon := lowerL n }

def extractNamesCore (t : List Char) : List ContactEntity :=
  finalizeEntities ((namePairs (tokensBy Char.isAlpha t)).map nameEntity)

/-- Modelled from the spec: the best-effort name extractor. -/
def extractNames (text : List Char) : List ContactEntity :=
  extractNamesCore (truncateText text)

def streetWordsL : List (List Char) :=
  ["street".data, "st".data, "ave".data, "avenue".data, "road".data,
    "rd".data, "blvd".data, "lane".data, "drive".data]

/-- A candidate address segment: contains a digit and a street keyword. -/
def addrLineOk (l : List Char) : Bool :=
  l.any Char.isDigit &&
    (tokensBy Char.isAlpha l).any (fun w => decide (lowerL w ∈ streetWordsL))

def addrEntity (l : List Char) : ContactEntity :=
  { raw := trimChars l, canon := lowerL (trimChars l) }

def extractAddressesCore (t : List Char) : List ContactEntity :=
  finalizeEntities
    (((tokensBy (fun c => !(c = '\n') && !(c = ',')) t).filter addrLineOk).map addrEntity)

/-- Modelled from the spec: the best-effort address extractor working on
comma or newline separated segments. -/
def extractAddresses (text : List Char) : List ContactEntity :=
  extractAddressesCore (truncateText text)

/-- All entity extractors, indexed by kind. -/
def extractEntities : EntityKind → List Char → List ContactEntity
  | .email => extractEmails
  | .phone => extractPhones
  | .whatsapp => extractWhatsapp
  | .social => extractSocial
  | .personName => extractNames
  | .address => extractAddresses

theorem dedupByCanon_subset (l : List ContactEntity) (seen : List (List Char))
    (e : ContactEntity) (h : e ∈ dedupByCanon seen l) : e ∈ l := by
  induction l generalizing seen with
  | nil => simp [dedupByCanon] at h
  | cons a as ih =>
    unfold dedupByCanon at h
    split at h
    · exact List.mem_cons_of_mem a (ih _ h)
    · rcases List.mem_cons.mp h with h | h
      · exact h ▸ List.mem_cons_self a as
      · exact List.mem_cons_of_mem a (ih _ h)

theorem dedupByCanon_not_seen (l : List ContactEntity) (seen : List (List Char))
    (e : ContactEntity) (h : e ∈ dedupByCanon seen l) : e.canon ∉ seen := by
  induction l generalizing seen with
  | nil => simp [dedupByCanon] at h
  | cons a as ih =>
    unfold dedupByCanon at h
    split at h
    · exact ih _ h
    · rename_i hna
      rcases List.mem_cons.mp h with h | h
      · exact h ▸ hna
      · intro hmem
        exact ih _ h (List.mem_cons_of_mem _ hmem)

theorem dedupByCanon_pairwise (l : List ContactEntity) (seen : List (List Char)) :
    (dedupByCanon seen l).Pairwise (fun a b => a.canon ≠ b.canon) := by
  induction l generalizing seen with
  | nil => exact List.Pairwise.nil
  | cons a as ih =>
    unfold dedupByCanon
    split
    · exact ih _
    · refine List.Pairwise.cons ?_ (ih _)
      intro b hb
      have := dedupByCanon_not_seen as (a.canon :: seen) b hb
      intro hcon
      exact this (hcon ▸ List.mem_cons_self _ _)

theorem finalizeEntities_length (l : List ContactEntity) :
    (finalizeEntities l).length ≤ MAX_RESULTS_PER_TYPE :=
  List.length_take_le _ _

theorem finalizeEntities_pairwise (l : List ContactEntity) :
    (finalizeEntities l).Pairwise (fun a b => a.canon ≠ b.canon) :=
  (dedupByCanon_pairwise l []).sublist (List.take_sublist _ _)

theorem finalizeEntities_subset (l : List ContactEntity) (e : ContactEntity)
    (h : e ∈ finalizeEntities l) : e ∈ l :=
  dedupByCanon_subset l [] e (List.take_subset _ _ h)

/-- Claim C7: every entity extractor returns at most MAX_RESULTS_PER_TYPE
= 50 results, and no two returned entities share a canonical form. -/
theorem claim7_extractor_caps (k : EntityKind) (text : List Char) :
    (extractEntities k text).length ≤ MAX_RESULTS_PER_TYPE ∧
    (extractEntities k text).Pairwise (fun a b => a.canon ≠ b.canon) := by
  cases k
  · exact ⟨finalizeEntities_length _, finalizeEntities_pairwise _⟩
  · exact ⟨finalizeEntities_length _, finalizeEntities_pairwise _⟩
  · exact ⟨finalizeEntities_length _, finalizeEntities_pairwise _⟩
  · exact ⟨finalizeEntities_length _, finalizeEntities_pairwise _⟩
  · exact ⟨finalizeEntities_length _, finalizeEntities_pairwise _⟩
  · exact ⟨finalizeEntities_length _, finalizeEntities_pairwise _⟩

theorem truncateText_idem (l : List Char) :
    truncateText (truncateText l) = truncateText l := by
  simp [truncateText, List.take_take]

/-- Tokenizing a run in which every character is kept yields the single
token consisting of the pending accumulator and the run. -/
theorem tokensByAux_all_keep (keep : Char → Bool) (l : List Char)
    (hall : ∀ c ∈ l, keep c = true) (acc : List Char) :
    tokensByAux keep l acc =
      if acc.reverse ++ l = [] then [] else [acc.reverse ++ l] := by
  induction l generalizing acc with
  | nil => simp [tokensByAux]
  | cons c cs ih =>
    have hc : keep c = true := hall c (List.mem_cons_self _ _)
    rw [tokensByAux, if_pos hc, ih (fun x hx => hall x (List.mem_cons_of_mem _ hx))]
    have hrw : (c :: acc).reverse ++ cs = acc.reverse ++ c :: cs := by
      simp
    rw [hrw]

/-- Splitting a list containing no separator yields one segment. -/
theorem splitOnAux_no_sep (sep : Char) (l : List Char)
    (hall : ∀ c ∈ l, c ≠ sep) (acc : List Char) :
    splitOnAux sep l acc = [acc.reverse ++ l] := by
  induction l generalizing acc with
  | nil => simp [splitOnAux]
  | cons c cs ih =>
    have hc : ¬c = sep := hall c (List.mem_cons_self _ _)
    rw [splitOnAux, if_neg hc, ih (fun x hx => hall x (List.mem_cons_of_mem _ hx))]
    simp

/-- Splitting a list whose single separator is its last character yields
the initial run and one empty segment. -/
theorem splitOnAux_sep_last (sep : Char) (l : List Char)
    (hall : ∀ c ∈ l, c ≠ sep) (acc : List Char) :
    splitOnAux sep (l ++ [sep]) acc = [acc.reverse ++ l, []] := by
  induction l generalizing acc with
  | nil => simp [splitOnAux]
  | cons c cs ih =>
    have hc : ¬c = sep := hall c (List.mem_cons_self _ _)
    rw [List.cons_append, splitOnAux, if_neg hc,
      ih (fun x hx => hall x (List.mem_cons_of_mem _ hx))]
    simp

theorem replicate_a_no_at (m : Nat) : ∀ c ∈ List.replicate m 'a', c ≠ '@' := by
  intro c hc
  rw [List.eq_of_mem_replicate hc]
  decide

/-- A candidate token with no at-sign yields no email. -/
theorem parseEmailToken_replicate_a (m : Nat) :
    parseEmailToken (List.replicate m 'a') = none := by
  unfold parseEmailToken splitOnChar
  rw [splitOnAux_no_sep '@' _ (replicate_a_no_at m) []]

/-- A candidate token whose at-sign is final has an empty domain and
yields no email. -/
theorem parseEmailToken_replicate_a_at (m : Nat) :
    parseEmailToken (List.replicate m 'a' ++ ['@']) = none := by
  unfold parseEmailToken splitOnChar
  rw [splitOnAux_sep_last '@' _ (replicate_a_no_at m) []]
  have hdom : domainOkE [] = false := rfl
  simp [hdom]

theorem emailChar_replicate_a (m : Nat) :
    ∀ c ∈ List.replicate m 'a' ++ ['@'], emailChar c = true := by
  intro c hc
  rcases List.mem_append.mp hc with h | h
  · rw [List.eq_of_mem_replicate h]; decide
  · rw [List.mem_singleton.mp h]; decide

theorem extractEmailsCore_adversarial (m : Nat) :
    extractEmailsCore (List.replicate m 'a' ++ ['@']) = [] := by
  unfold extractEmailsCore emailCandidates tokensBy
  rw [tokensByAux_all_keep emailChar _ (emailChar_replicate_a m) []]
  by_cases hm : ([] : List Char).reverse ++ (List.replicate m 'a' ++ ['@']) = []
  · simp at hm
  · rw [if_neg hm]
    simp only [List.reverse_nil, List.nil_append, List.filterMap_cons]
    rw [parseEmailToken_replicate_a_at m]
    rfl

theorem extractEmailsCore_replicate_a (m : Nat) :
    extractEmailsCore (List.replicate m 'a') = [] := by
  unfold extractEmailsCore emailCandidates tokensBy
  have hall : ∀ c ∈ List.replicate m 'a', emailChar c = true := by
    intro c hc
    rw [List.eq_of_mem_replicate hc]
    decide
  rw [tokensByAux_all_keep emailChar _ hall []]
  by_cases hm : ([] : List Char).reverse ++ List.replicate m 'a' = []
  · rw [if_pos hm]; rfl
  · rw [if_neg hm]
    simp [parseEmailToken_replicate_a m]
    rfl

/-- Claim C2: every entity extractor is a total function whose result
depends only on the first MAX_TEXT_LENGTH characters of the input (the
cap applied before any matching), and on the adversarial input of a long
run of a single repeated character followed by a near-miss terminator
the email extractor returns (the empty result) for every run length,
including runs past the cap.  The wall-clock time bound itself is not
expressible over this embedding. -/
theorem claim2_extractor_totality_bounds :
    (∀ s, extractEmails s = extractEmails (truncateText s)) ∧
    (∀ s, extractPhones s = extractPhones (truncateText s)) ∧
    (∀ s, extractWhatsapp s = extractWhatsapp (truncateText s)) ∧
    (∀ s, extractSocial s = extractSocial (truncateText s)) ∧
    (∀ s, extractNames s = extractNames (truncateText s)) ∧
    (∀ s, extractAddresses s = extractAddresses (truncateText s)) ∧
    (∀ n, extractEmails (List.replicate n 'a' ++ ['@']) = []) := by
  refine ⟨?_, ?_, ?_, ?_, ?_, ?_, ?_⟩
  · intro s; unfold extractEmails; rw [truncateText_idem]
  · intro s; unfold extractPhones; rw [truncateText_idem]
  · intro s; unfold extractWhatsapp; rw [truncateText_idem]
  · intro s; unfold extractSocial; rw [truncateText_idem]
  · intro s; unfold extractNames; rw [truncateText_idem]
  · intro s; unfold extractAddresses; rw [truncateText_idem]
  · intro n
    unfold extractEmails truncateText
    by_cases hn : n + 1 ≤ MAX_TEXT_LENGTH
    · rw [List.take_of_length_le (by simpa using hn)]
      exact extractEmailsCore_adversarial n
    · rw [List.take_append_of_le_length
        (by simp [List.length_replicate]; omega), List.take_replicate]
      exact extractEmailsCore_replicate_a _

theorem or5_false {a b c d e : Bool} (h : (a || b || c || d || e) = false) :
    a = false ∧ b = false ∧ c = false ∧ d = false ∧ e = false := by
  cases a
  · cases b
    · cases c
      · cases d
        · cases e
          · exact ⟨rfl, rfl, rfl, rfl, rfl⟩
          · simp at h
        · simp at h
      · simp at h
    · simp at h
  · simp at h

/-- Claim C8: no email returned by the email extractor is an address
embedded in an image filename or dimension suffix, a stylesheet or
script asset reference, a noreply or postmaster system mailbox, or an
address with a purely numeric local part. -/
theorem claim8_email_filters (text : List Char) (e : ContactEntity)
    (h : e ∈ extractEmails text) :
    ∃ loc dom, e = emailEntity (loc, dom) ∧
      lowerL loc ≠ noreplyL ∧
      lowerL loc ≠ postmasterL ∧
      loc.all Char.isDigit = false ∧
      (∀ ext ∈ assetExtsL, endsWithL ext (lowerL dom) = false) ∧
      isDimDomain dom = false := by
  unfold extractEmails extractEmailsCore at h
  have h1 := finalizeEntities_subset _ _ h
  obtain ⟨p, hp, hpe⟩ := List.mem_map.mp h1
  obtain ⟨hpc, hjunk⟩ := List.mem_filter.mp hp
  have hjunk' : isJunkEmail p.1 p.2 = false := by
    simpa using hjunk
  unfold isJunkEmail at hjunk'
  obtain ⟨h1, h2, h3, h4, h5⟩ := or5_false hjunk'
  refine ⟨p.1, p.2, by rw [← hpe], of_decide_eq_false h1, of_decide_eq_false h2,
    h3, ?_, h5⟩
  intro ext hext
  rw [List.any_eq_false] at h4
  simpa using h4 ext hext

/-- Witness for C8: a concrete page text yields the email
info@example.com, whose parts satisfy all the filter conditions. -/
theorem claim8_email_filters_witness :
    ∃ loc dom,
      emailEntity ("info".data, "example.com".data) = emailEntity (loc, dom) ∧
      lowerL loc ≠ noreplyL ∧
      lowerL loc ≠ postmasterL ∧
      loc.all Char.isDigit = false ∧
      (∀ ext ∈ assetExtsL, endsWithL ext (lowerL dom) = false) ∧
      isDimDomain dom = false :=
  claim8_email_filters ("contact: info@example.com".data)
    (emailEntity ("info".data, "example.com".data)) (by decide)

/-! ## Crawl controller and extraction report

The crawl controller and report assembly live in the backend
(backend/app/scraper.py and main.py), which is not part of the available
sources; the definitions below are modelled from the spec: a bounded
fetch loop over a page budget, first-page failure terminal with
success false and empty entity lists, later failures non-fatal. -/

/-- The final output for one target, grouped by entity kind. -/
structure Report where
  success : Bool
  pages_scraped : Nat
  emails : List ContactEntity
  phones : List ContactEntity
  whatsapp : List ContactEntity
  social_links : List ContactEntity
  names : List ContactEntity
  addresses : List ContactEntity
  errorMsg : Option (List Char)

/-- A report with empty entity lists. -/
def emptyReport (succ : Bool) (pages : Nat) (err : Option (List Char)) : Report :=
  { success := succ, pages_scraped := pages, emails := [], phones := [],
    whatsapp := [], social_links := [], names := [], addresses := [],
    errorMsg := err }

/-- Merge the entities of a newly fetched page into the accumulated set,
deduplicated across pages by canonical form. -/
def mergeEntities (a b : List ContactEntity) : List ContactEntity :=
  finalizeEntities (a ++ b)

/-- Run all extractors on a page body and merge into the report. -/
def extractAllInto (body : List Char) (r : Report) : Report :=
  { r with
    emails := mergeEntities r.emails (extractEmails body),
    phones := mergeEntities r.phones (extractPhones body),
    whatsapp := mergeEntities r.whatsapp (extractWhatsapp body),
    social_links := mergeEntities r.social_links (extractSocial body),
    names := mergeEntities r.names (extractNames body),
    addresses := mergeEntities r.addresses (extractAddresses body) }

/-- Modelled from the spec: the crawl loop after the first page: while
budget remains, fetch the next candidate; a failed fetch of a later page
is recorded as consumed and reduces coverage, a successful one adds its
entities and counts one scraped page. -/
def crawlRest (fetch : Nat → Option (List Char)) :
    Nat → Nat → Report → Report
  | 0, _, r => r
  | fuel + 1, page, r =>
    match fetch page with
    | some body =>
      crawlRest fetch fuel (page + 1)
        (let r2 := extractAllInto body r
         { r2 with pages_scraped := r2.pages_scraped + 1 })
    | none => crawlRest fetch fuel (page + 1) r

def firstPageErr : List Char := "first page unreachable".data

/-- Modelled from the spec: one extraction target: if the page budget is
already exhausted the crawl is done at once; if the first page fails the
target fails outright with empty entity lists and an error message;
otherwise the first page is extracted and the loop continues over the
remaining budget. -/
def runTarget (maxPages : Nat) (fetch : Nat → Option (List Char)) : Report :=
  if maxPages = 0 then emptyReport true 0 none
  else
    match fetch 0 with
    | none => emptyReport false 0 (some firstPageErr)
    | some body0 =>
      crawlRest fetch (maxPages - 1) 1
        (extractAllInto body0 (emptyReport true 1 none))

theorem crawlRest_success (fetch : Nat → Option (List Char)) (fuel page : Nat)
    (r : Report) : (crawlRest fetch fuel page r).success = r.success := by
  induction fuel generalizing page r with
  | zero => rfl
  | succ n ih =>
    unfold crawlRest
    match h : fetch page with
    | some body => rw [ih]; rfl
    | none => rw [ih]

theorem crawlRest_pages (fetch : Nat → Option (List Char)) (fuel page : Nat)
    (r : Report) :
    (crawlRest fetch fuel page r).pages_scraped ≤ r.pages_scraped + fuel := by
  induction fuel generalizing page r with
  | zero => simp [crawlRest]
  | succ n ih =>
    unfold crawlRest
    match h : fetch page with
    | some body =>
      refine le_trans (ih _ _) ?_
      show (extractAllInto body r).pages_scraped + 1 + n ≤ r.pages_scraped + (n + 1)
      have hp : (extractAllInto body r).pages_scraped = r.pages_scraped := rfl
      omega
    | none => exact le_trans (ih _ _) (by omega)

/-- Claim C4: in every report produced by one extraction, success false
forces all entity lists empty, and success true is compatible with all
entity lists empty (a page with no contacts). -/
theorem claim4_report_invariant :
    (∀ maxPages fetch, (runTarget maxPages fetch).success = false →
      (runTarget maxPages fetch).emails = [] ∧
      (runTarget maxPages fetch).phones = [] ∧
      (runTarget maxPages fetch).whatsapp = [] ∧
      (runTarget maxPages fetch).social_links = [] ∧
      (runTarget maxPages fetch).names = [] ∧
      (runTarget maxPages fetch).addresses = []) ∧
    (∃ maxPages fetch, (runTarget maxPages fetch).success = true ∧
      (runTarget maxPages fetch).emails = [] ∧
      (runTarget maxPages fetch).phones = [] ∧
      (runTarget maxPages fetch).whatsapp = [] ∧
      (runTarget maxPages fetch).social_links = [] ∧
      (runTarget maxPages fetch).names = [] ∧
      (runTarget maxPages fetch).addresses = []) := by
  constructor
  · intro maxPages fetch hfail
    unfold runTarget at hfail ⊢
    by_cases h0 : maxPages = 0
    · rw [if_pos h0] at hfail
      exact absurd hfail (by simp [emptyReport])
    · rw [if_neg h0] at hfail ⊢
      cases hf : fetch 0 with
      | none =>
        exact ⟨rfl, rfl, rfl, rfl, rfl, rfl⟩
      | some body0 =>
        rw [hf] at hfail
        have hfail' :
            (crawlRest fetch (maxPages - 1) 1
              (extractAllInto body0 (emptyReport true 1 none))).success = false := hfail
        rw [crawlRest_success] at hfail'
        exact absurd hfail' (by simp [extractAllInto, emptyReport])
  · exact ⟨1, fun _ => some [], by decide⟩

/-- Witness for C4 at a concrete input: a target whose first page fails
yields a report with empty entity lists. -/
theorem claim4_report_invariant_witness :
    (runTarget 1 (fun _ => none)).emails = [] ∧
    (runTarget 1 (fun _ => none)).phones = [] ∧
    (runTarget 1 (fun _ => none)).whatsapp = [] ∧
    (runTarget 1 (fun _ => none)).social_links = [] ∧
    (runTarget 1 (fun _ => none)).names = [] ∧
    (runTarget 1 (fun _ => none)).addresses = [] :=
  claim4_report_invariant.1 1 (fun _ => none) (by decide)

/-! ## Frontend extraction timer (frontend/src/App.jsx, handleExtract) -/

def TIMEOUT_SECONDS : Nat := 30

/-- Frontend timer state: whether the request is still loading, whether
the abort controller fired, and the elapsed whole seconds. -/
structure TimerState where
  loading : Bool
  aborted : Bool
  elapsed : Nat

def timerInit : TimerState := { loading := true, aborted := false, elapsed := 0 }

/-- One interval tick of the handleExtract timer: while loading, advance
the elapsed time; when it reaches TIMEOUT_SECONDS, clear the interval,
abort the in-flight request and stop loading. -/
def timerTick (s : TimerState) : TimerState :=
  if s.loading then
    if TIMEOUT_SECONDS ≤ s.elapsed + 1 then
      { loading := false, aborted := true, elapsed := s.elapsed + 1 }
    else { s with elapsed := s.elapsed + 1 }
  else s

def timerRun : Nat → TimerState
  | 0 => timerInit
  | n + 1 => timerTick (timerRun n)

theorem timerTick_inv (s : TimerState) (h1 : s.elapsed ≤ TIMEOUT_SECONDS)
    (h2 : s.loading = true → s.elapsed < TIMEOUT_SECONDS)
    (h3 : TIMEOUT_SECONDS ≤ s.elapsed → s.loading = false ∧ s.aborted = true) :
    (timerTick s).elapsed ≤ TIMEOUT_SECONDS ∧
      ((timerTick s).loading = true → (timerTick s).elapsed < TIMEOUT_SECONDS) ∧
      (TIMEOUT_SECONDS ≤ (timerTick s).elapsed →
        (timerTick s).loading = false ∧ (timerTick s).aborted = true) := by
  unfold timerTick
  by_cases hl : s.loading = true
  · rw [if_pos hl]
    have hlt := h2 hl
    by_cases ht : TIMEOUT_SECONDS ≤ s.elapsed + 1
    · rw [if_pos ht]
      refine ⟨?_, ?_, ?_⟩
      · show s.elapsed + 1 ≤ TIMEOUT_SECONDS
        omega
      · intro hcon
        exact Bool.noConfusion hcon
      · intro _
        exact ⟨rfl, rfl⟩
    · rw [if_neg ht]
      refine ⟨?_, ?_, ?_⟩
      · show s.elapsed + 1 ≤ TIMEOUT_SECONDS
        omega
      · intro _
        show s.elapsed + 1 < TIMEOUT_SECONDS
        omega
      · intro hc
        have hc' : TIMEOUT_SECONDS ≤ s.elapsed + 1 := hc
        exact absurd hc' ht
  · rw [if_neg hl]
    exact ⟨h1, h2, h3⟩

theorem timerRun_inv (n : Nat) :
    (timerRun n).elapsed ≤ TIMEOUT_SECONDS ∧
      ((timerRun n).loading = true → (timerRun n).elapsed < TIMEOUT_SECONDS) ∧
      (TIMEOUT_SECONDS ≤ (timerRun n).elapsed →
        (timerRun n).loading = false ∧ (timerRun n).aborted = true) := by
  induction n with
  | zero => exact ⟨by decide, fun _ => by decide, fun h => absurd h (by decide)⟩
  | succ n ih =>
    exact timerTick_inv (timerRun n) ih.1 ih.2.1 ih.2.2

/-- Claim C5: budget respect: the report of every target satisfies
pages_scraped at most the configured page budget, and the frontend
timer never lets the elapsed time pass TIMEOUT_SECONDS = 30: at the tick
where the elapsed time reaches the timeout the in-flight request is
aborted and loading stops. -/
theorem claim5_budget_respect :
    (∀ maxPages fetch, (runTarget maxPages fetch).pages_scraped ≤ maxPages) ∧
    (∀ n, (timerRun n).elapsed ≤ TIMEOUT_SECONDS) ∧
    (∀ n, TIMEOUT_SECONDS ≤ (timerRun n).elapsed →
      (timerRun n).loading = false ∧ (timerRun n).aborted = true) := by
  refine ⟨?_, fun n => (timerRun_inv n).1, fun n => (timerRun_inv n).2.2⟩
  intro maxPages fetch
  unfold runTarget
  by_cases h0 : maxPages = 0
  · rw [if_pos h0, h0]
    exact Nat.le_refl 0
  · rw [if_neg h0]
    cases hf : fetch 0 with
    | none =>
      show (emptyReport false 0 (some firstPageErr)).pages_scraped ≤ maxPages
      simp [emptyReport]
    | some body0 =>
      show (crawlRest fetch (maxPages - 1) 1
        (extractAllInto body0 (emptyReport true 1 none))).pages_scraped ≤ maxPages
      refine le_trans (crawlRest_pages fetch (maxPages - 1) 1 _) ?_
      have hp : (extractAllInto body0 (emptyReport true 1 none)).pages_scraped = 1 := rfl
      omega

/-- Witness for C5: after thirty ticks the timer has reached the
timeout, the request is aborted and the loop is stopped. -/
theorem claim5_budget_respect_witness :
    (timerRun 30).loading = false ∧ (timerRun 30).aborted = true :=
  claim5_budget_respect.2.2 30 (by decide)

/-! ## Backend URL validation

The backend validate_url function (api/extract.py and
backend/app/scraper.py) is not part of the available sources; the
changelog documents it as performing protocol normalization, control
character removal, local and private IP blocking and URL length
limiting (2000 characters).  The definition below is modelled from the
spec section on validateAndNormalizeURL. -/

def isCtrlChar (c : Char) : Bool := c.val < 32 || c.val = 127

/-- Modelled from the spec: control character removal. -/
def stripCtrl (l : List Char) : List Char := l.filter (fun c => !isCtrlChar c)

def digitsToNat (l : List Char) : Nat :=
  l.foldl (fun acc c => acc * 10 + (c.toNat - 48)) 0

/-- Modelled from the spec: loopback, link-local and private-range
hosts: 127.*, 10.*, 172.16-31.*, 192.168.*, 169.254.*, localhost and
the IPv6 loopback. -/
def isPrivateHost (h : List Char) : Bool :=
  h = "localhost".data || h = "::1".data ||
  startsWithL ("127.".data) h || startsWithL ("10.".data) h ||
  startsWithL ("192.168.".data) h || startsWithL ("169.254.".data) h ||
  (startsWithL ("172.".data) h &&
    (fun oct => decide (oct ≠ []) && decide (16 ≤ digitsToNat oct) &&
      decide (digitsToNat oct ≤ 31)) ((h.drop 4).takeWhile Char.isDigit))

def hostOfUrl (w : List Char) : List Char :=
  (stripSchemeL w).takeWhile (fun c => c ≠ '/')

/-- Scheme normalization after control character removal: add https
when no scheme is present. -/
def vnwPre (s : List Char) : List Char :=
  if startsWithL httpChars (stripCtrl s) || startsWithL httpsChars (stripCtrl s) then
    stripCtrl s
  else httpsChars ++ stripCtrl s

/-- Modelled from the spec: validateAndNormalizeURL: trims control
characters, rejects input longer than 2000 characters, prefixes https
when no scheme is present, rejects a malformed (empty-host) URL and
rejects loopback, link-local and private-range hosts; on success
returns the normalized URL.  Failure is the single ValidationError
kind. -/
def validateAndNormalizeURL (s : List Char) : Except Unit (List Char) :=
  if 2000 < (stripCtrl s).length then .error ()
  else if hostOfUrl (vnwPre s) = [] then .error ()
  else if isPrivateHost (hostOfUrl (vnwPre s)) then .error ()
  else .ok (vnwPre s)

theorem stripCtrl_all (s : List Char) :
    (stripCtrl s).all (fun c => !isCtrlChar c) = true := by
  rw [List.all_eq_true]
  intro c hc
  exact (List.mem_filter.mp hc).2

/-- Claim C6: URL validation removes control characters (the output of a
successful validation contains none) and rejects any input whose
control-trimmed form is longer than 2000 characters. -/
theorem claim6_validation_limits :
    (∀ s, 2000 < (stripCtrl s).length → validateAndNormalizeURL s = .error ()) ∧
    (∀ s out, validateAndNormalizeURL s = .ok out →
      out.all (fun c => !isCtrlChar c) = true) := by
  constructor
  · intro s h
    unfold validateAndNormalizeURL
    rw [if_pos h]
  · intro s out h
    unfold validateAndNormalizeURL at h
    split at h
    · exact absurd h (by simp)
    · split at h
      · exact absurd h (by simp)
      · split at h
        · exact absurd h (by simp)
        · have hout : out = vnwPre s := (Except.ok.injEq _ _).mp h.symm
          rw [hout]
          unfold vnwPre
          split
          · exact stripCtrl_all s
          · rw [List.all_append]
            rw [stripCtrl_all s]
            decide

/-- Witness for C6 at concrete inputs: an input of 2001 characters is
rejected, and validating example.com yields an output free of control
characters. -/
theorem claim6_validation_limits_witness :
    validateAndNormalizeURL (List.replicate 2001 'a') = .error () ∧
    ("https://example.com".data.all (fun c => !isCtrlChar c) = true) := by
  constructor
  · refine claim6_validation_limits.1 (List.replicate 2001 'a') ?_
    have hkeep : stripCtrl (List.replicate 2001 'a') = List.replicate 2001 'a' :=
      List.filter_eq_self.mpr
        (fun c hc => by rw [List.eq_of_mem_replicate hc]; decide)
    rw [hkeep, List.length_replicate]
    omega
  · exact claim6_validation_limits.2 ("example.com".data)
      ("https://example.com".data) (by rfl)

end ContactExtractor
